import Mathlib

/-!
# Verification of the TGraph2D scattered-point container and its
# Delaunay-interpolation query path

Shallow embedding of `hist/hist/src/TGraph2D.cxx` (ROOT's `TGraph2D` class).

Modelling conventions:
* `Double_t` is embedded as `ℚ` (exact arithmetic; none of the verified
  claims depend on floating-point rounding).  `TMath::QuietNaN()` is
  embedded as `none` in an `Option ℚ` result.
* The three parallel coordinate arrays `fX`, `fY`, `fZ` (valid prefix of
  length `fNpoints`) are embedded as a single list `pts` of triples; the
  spare capacity `fSize` beyond `fNpoints` is not observable through any
  of the verified operations and is not modelled.  A null coordinate
  array can only occur when no valid point exists, so the list model
  represents exactly the observable states.
* `Int_t` values are embedded as `ℤ` (no operation verified here can
  overflow 32 bits).
* The Delaunay interpolator objects (`TGraphDelaunay`,
  `TGraphDelaunay2D`, outside this source slice) are embedded as a
  record holding the data they are constructed from in
  `TGraph2D::CreateInterpolator`: the snapshot of the sample list and
  the build parameters.  Their `ComputeZ` member is outside the slice as
  well and is treated as an arbitrary pure function
  `cz : Delaunay → ℚ → ℚ → ℚ`, a parameter of every operation that
  interpolates; theorems hold for every such function.
* `TH2D` (outside the slice) is embedded with exactly the behaviour the
  `TGraph2D` code uses: fixed binning on both axes, `Fill(x,y,z)` adds
  `z` to the bin containing `(x,y)` and bumps the entry counter, and the
  list of associated functions holds the interpolator object.
-/

/-- One sample: `(x, y, z)`, the entries of `fX`, `fY`, `fZ` at one index. -/
abbrev Point := ℚ × ℚ × ℚ

/-- Modelled from the spec: `TMath::AreEqualRel(af, bf, relPrec)` (outside
this source slice) — relative-epsilon equality of two values,
`|af − bf| ≤ (relPrec/2)·(|af| + |bf|)`; the spec speaks of comparisons
"within a relative epsilon, e.g. 1e-9 of the bounding-box scale". -/
def areEqualRel (af bf relPrec : ℚ) : Bool :=
  decide (|af - bf| ≤ relPrec / 2 * (|af| + |bf|))

/-- The Delaunay interpolator attached to the histogram by
`TGraph2D::CreateInterpolator`: either a `TGraphDelaunay` (old
implementation, `isOld = true`, carrying a `SetMaxIter` bound) or a
`TGraphDelaunay2D` (new implementation).  Both copy the graph's sample
snapshot and the outside-hull fill value (`SetMarginBinsContent`) when
created; the snapshot is what a stale cached interpolator keeps using. -/
structure Delaunay where
  isOld : Bool
  pts : List Point
  zout : ℚ
  maxIter : Option ℤ
deriving DecidableEq

/-- The `TH2D` histogram as used by `TGraph2D`: fixed binning, bin
contents indexed by 1-based bin numbers (0 and `n+1` are the under- and
overflow bins), an entry counter, the stored minimum/maximum
(`-1111` = unset, as in `TH1`), and the list of associated functions,
which here only ever holds interpolator objects. -/
structure TH2D where
  nbx : ℤ
  xlo : ℚ
  xhi : ℚ
  nby : ℤ
  ylo : ℚ
  yhi : ℚ
  bins : ℤ → ℤ → ℚ
  entries : ℕ
  hmin : ℚ
  hmax : ℚ
  funcs : List Delaunay

/-- The `TGraph2D` object: sample list plus the members that the
verified operations read or write.  Plotting/naming/directory members
are omitted (out of scope per the spec). `kOldBit` is the
`kOldInterpolation` status bit. -/
structure TGraph2D where
  pts : List Point
  fMargin : ℚ
  fNpx : ℤ
  fNpy : ℤ
  fZout : ℚ
  fMaxIter : ℤ
  fMaximum : ℚ
  fMinimum : ℚ
  fUserHisto : Bool
  kOldBit : Bool
  fHistogram : Option TH2D
  fDelaunay : Option Delaunay

/-- A freshly booked `TH2D(name, title, nbx, xlo, xhi, nby, ylo, yhi)`:
all bins empty, no entries, min/max unset, no associated functions. -/
def freshHist (nbx : ℤ) (xlo xhi : ℚ) (nby : ℤ) (ylo yhi : ℚ) : TH2D :=
  { nbx := nbx, xlo := xlo, xhi := xhi, nby := nby, ylo := ylo, yhi := yhi,
    bins := fun _ _ => 0, entries := 0, hmin := -1111, hmax := -1111, funcs := [] }

/-- `TGraph2D::GetXmin`: `v = fX[0]`, then take every smaller `fX[i]`.
(The C++ reads `fX[0]` of a null array when `fNpoints = 0`; the claims
only use nonempty graphs, the `[]` case returns `0`.) -/
def minX : List Point → ℚ
  | [] => 0
  | p :: rest => rest.foldl (fun v q => if q.1 < v then q.1 else v) p.1

/-- `TGraph2D::GetXmax`. -/
def maxX : List Point → ℚ
  | [] => 0
  | p :: rest => rest.foldl (fun v q => if q.1 > v then q.1 else v) p.1

/-- `TGraph2D::GetYmin`. -/
def minY : List Point → ℚ
  | [] => 0
  | p :: rest => rest.foldl (fun v q => if q.2.1 < v then q.2.1 else v) p.2.1

/-- `TGraph2D::GetYmax`. -/
def maxY : List Point → ℚ
  | [] => 0
  | p :: rest => rest.foldl (fun v q => if q.2.1 > v then q.2.1 else v) p.2.1

/-- `TGraph2D::GetZmin`. -/
def minZ : List Point → ℚ
  | [] => 0
  | p :: rest => rest.foldl (fun v q => if q.2.2 < v then q.2.2 else v) p.2.2

/-- `TGraph2D::GetZmax`. -/
def maxZ : List Point → ℚ
  | [] => 0
  | p :: rest => rest.foldl (fun v q => if q.2.2 > v then q.2.2 else v) p.2.2

/-- Modelled from the spec: `GetXminE`/`GetXmaxE` etc. live in the header
`TGraph2D.h`, outside this source slice; for the base `TGraph2D` they
return the plain extrema ("BoundingBox — derived min/max of x and y over
all samples"). -/
def minXE (l : List Point) : ℚ := minX l

/-- Modelled from the spec: see `minXE`. -/
def maxXE (l : List Point) : ℚ := maxX l

/-- Modelled from the spec: see `minXE`. -/
def minYE (l : List Point) : ℚ := minY l

/-- Modelled from the spec: see `minXE`. -/
def maxYE (l : List Point) : ℚ := maxY l

/-- Modelled from the spec: see `minXE`. -/
def minZE (l : List Point) : ℚ := minZ l

/-- Modelled from the spec: see `minXE`. -/
def maxZE (l : List Point) : ℚ := maxZ l

/-- `TAxis::FindBin` for a fixed-bin axis with `n` bins over `[lo, hi)`:
underflow bin `0` below `lo`, overflow bin `n+1` at or above `hi`, else
`1 + Int_t(n·(x − lo)/(hi − lo))` (truncation = floor on nonnegative
values). `TH2D` is outside this source slice; the behaviour embedded is
the one the `TGraph2D` code relies on. -/
def findBin (n : ℤ) (lo hi x : ℚ) : ℤ :=
  if x < lo then 0
  else if hi ≤ x then n + 1
  else 1 + ⌊(n : ℚ) * (x - lo) / (hi - lo)⌋

/-- `TH2D::Fill(x, y, z)`: add `z` to the content of the bin containing
`(x, y)` and increment the entry counter. -/
def fill (h : TH2D) (x y z : ℚ) : TH2D :=
  let bi := findBin h.nbx h.xlo h.xhi x
  let bj := findBin h.nby h.ylo h.yhi y
  { h with
    bins := fun p q => if p = bi ∧ q = bj then h.bins p q + z else h.bins p q,
    entries := h.entries + 1 }

/-- The cell-center abscissa used by the fill loop of
`TGraph2D::GetHistogram`: `lo + (k − 0.5)·d` for the 1-based bin `k`
(`k = i + 1` for the 0-based iteration index `i`). -/
def centerAt (lo d : ℚ) (i : ℕ) : ℚ := lo + (((i : ℚ) + 1) - 1 / 2) * d

/-- The inner loop (`for iy = 1..fNpy`) of `TGraph2D::GetHistogram`'s
fill pass: at fixed `x`, fill every y cell center with the
interpolator's value. -/
def fillRow (cz : Delaunay → ℚ → ℚ → ℚ) (d : Delaunay) (x ylo dy : ℚ)
    (npy : ℕ) (h : TH2D) : TH2D :=
  (List.range npy).foldl (fun hh j => fill hh x (centerAt ylo dy j) (cz d x (centerAt ylo dy j))) h

/-- The outer loop (`for ix = 1..fNpx`) of `TGraph2D::GetHistogram`'s
fill pass. -/
def fillGrid (cz : Delaunay → ℚ → ℚ → ℚ) (d : Delaunay) (xlo dx ylo dy : ℚ)
    (npx npy : ℕ) (h : TH2D) : TH2D :=
  (List.range npx).foldl (fun hh i => fillRow cz d (centerAt xlo dx i) ylo dy npy hh) h

/-- The degenerate-range widening in `TGraph2D::GetHistogram` (applied
separately to the x and the y range): if the two ends are relatively
equal within `1e-9`, replace a near-zero range by `[-0.001, 0.001]` and
otherwise widen each end by `|end|·(ε/2)`. -/
def adjustAxis (lo hi : ℚ) : ℚ × ℚ :=
  if areEqualRel hi lo (1 / 1000000000) then
    if |lo| < 1 / 1000000000 then (-(1 / 1000), 1 / 1000)
    else (lo - |lo| * (1 / 1000000000 / 2), hi + |hi| * (1 / 1000000000 / 2))
  else (lo, hi)

/-- In-range bin contents of a `TH2D`, row by row (used by the
`GetMinimum`/`GetMaximum` scan). -/
def binContents (h : TH2D) : List ℚ :=
  ((List.range h.nbx.toNat).map (fun i =>
    (List.range h.nby.toNat).map (fun j => h.bins ((i : ℤ) + 1) ((j : ℤ) + 1)))).flatten

/-- Modelled from the spec: `TH1::GetMinimum` (outside this source
slice) — the stored minimum if set, otherwise the smallest in-range bin
content (scan seeded with `FLT_MAX`). -/
def getMinimumH (h : TH2D) : ℚ :=
  if h.hmin ≠ -1111 then h.hmin
  else (binContents h).foldl (fun a b => if b < a then b else a) (2 ^ 128 - 2 ^ 104)

/-- Modelled from the spec: `TH1::GetMaximum`, see `getMinimumH`. -/
def getMaximumH (h : TH2D) : ℚ :=
  if h.hmax ≠ -1111 then h.hmax
  else (binContents h).foldl (fun a b => if b > a then b else a) (-(2 ^ 128 - 2 ^ 104))

/-- `TGraph2D::CreateInterpolator(oldInterp)`: build a `TGraphDelaunay`
(old) or `TGraphDelaunay2D` (new) from the current samples, pass it
`fMaxIter` (old only) and `fZout`, store it in `fDelaunay`, set or reset
the `kOldInterpolation` bit, and add it to the histogram's list of
functions unless one of that kind is already there. -/
def createInterpolator (oldInterp : Bool) (g : TGraph2D) : TGraph2D :=
  match g.fHistogram with
  | none => g
  | some h =>
    let d : Delaunay :=
      if oldInterp then
        { isOld := true, pts := g.pts, zout := g.fZout, maxIter := some g.fMaxIter }
      else
        { isOld := false, pts := g.pts, zout := g.fZout, maxIter := none }
    let funcs := if h.funcs.any (fun e => e.isOld == oldInterp) then h.funcs else h.funcs ++ [d]
    { g with fDelaunay := some d, kOldBit := oldInterp,
             fHistogram := some { h with funcs := funcs } }

/-- The cache-invalidation idiom used throughout `TGraph2D.cxx`:
`if (fHistogram) { delete fHistogram; fHistogram = nullptr; fDelaunay = nullptr; }`. -/
def clearHist (g : TGraph2D) : TGraph2D :=
  match g.fHistogram with
  | none => g
  | some _ => { g with fHistogram := none, fDelaunay := none }

/-- The booking-and-filling part of `TGraph2D::GetHistogram` (lines
1049–1154): compute the margin-expanded ranges (non-user histogram),
book or re-limit the histogram, and either set min/max only (`empty`
option) or fill every cell center from the interpolator.  A null
`fDelaunay` in the fill loop would dereference null in C++; that
configuration is unreachable from the public operations and the model
returns the state unchanged there. -/
def bookHistogram (g : TGraph2D) (oldInterp : Bool) : TGraph2D × ℚ × ℚ × ℚ × ℚ :=
  if g.fUserHisto then
    match g.fHistogram with
    | some h => (g, h.xlo, h.xhi, h.ylo, h.yhi)
    | none => (g, (0 : ℚ), (0 : ℚ), (0 : ℚ), (0 : ℚ))
  else
    let xmax := maxXE g.pts
    let ymax := maxYE g.pts
    let xmin := minXE g.pts
    let ymin := minYE g.pts
    let hx := adjustAxis (xmin - g.fMargin * (xmax - xmin)) (xmax + g.fMargin * (xmax - xmin))
    let hy := adjustAxis (ymin - g.fMargin * (ymax - ymin)) (ymax + g.fMargin * (ymax - ymin))
    match g.fHistogram with
    | some h =>
      let h2 : TH2D := { h with xlo := hx.1, xhi := hx.2, ylo := hy.1, yhi := hy.2 }
      ({ g with fHistogram := some h2 }, hx.1, hx.2, hy.1, hy.2)
    | none =>
      let h := freshHist g.fNpx hx.1 hx.2 g.fNpy hy.1 hy.2
      (createInterpolator oldInterp { g with fHistogram := some h },
       hx.1, hx.2, hy.1, hy.2)

/-- The remainder of the booking-and-filling pass, continuing
`bookHistogram`. -/
def getHistogramRebuild (cz : Delaunay → ℚ → ℚ → ℚ) (g : TGraph2D)
    (empty oldInterp : Bool) : TGraph2D :=
  let t := bookHistogram g oldInterp
  let g1 := t.1
  let hxmin := t.2.1
  let hxmax := t.2.2.1
  let hymin := t.2.2.2.1
  let hymax := t.2.2.2.2
  if empty then
      let hzmin0 := if g.fMinimum ≠ -1111 then g.fMinimum else minZE g.pts
      let hzmax0 := if g.fMaximum ≠ -1111 then g.fMaximum else maxZE g.pts
      let hz :=
        if hzmin0 = hzmax0 then
          if hzmin0 = 0 then (-(1 / 100), (1 / 100 : ℚ))
          else (hzmin0 - |hzmin0| / 100, hzmin0 + |hzmin0| / 100)
        else (hzmin0, hzmax0)
      match g1.fHistogram with
      | some h => { g1 with fHistogram := some { h with hmin := hz.1, hmax := hz.2 } }
      | none => g1
    else
      match g1.fHistogram, g1.fDelaunay with
      | some h, some d =>
        let dx := (hxmax - hxmin) / (g.fNpx : ℚ)
        let dy := (hymax - hymin) / (g.fNpy : ℚ)
        let h1 := fillGrid cz d hxmin dx hymin dy g.fNpx.toNat g.fNpy.toNat h
        let hzmin := minZE g.pts
        let hzmax := maxZE g.pts
        let h2 := if hzmin < getMinimumH h1 then { h1 with hmin := hzmin } else h1
        let h3 := if hzmax > getMaximumH h2 then { h2 with hmax := hzmax } else h2
        let h4 := if g.fMinimum ≠ -1111 then { h3 with hmin := g.fMinimum } else h3
        let h5 := if g.fMaximum ≠ -1111 then { h4 with hmax := g.fMaximum } else h4
        { g1 with fHistogram := some h5 }
      | _, _ => g1

/-- `TGraph2D::GetHistogram(option)` (lines 1010–1155): for an empty
graph return (booking if needed) a histogram over `[0,1]×[0,1]`;
otherwise drop a cached histogram that is empty (non-user) or of the
wrong interpolation kind and rebuild, or return the cached one. -/
def getHistogram (cz : Delaunay → ℚ → ℚ → ℚ) (g : TGraph2D)
    (empty oldInterp : Bool) : TGraph2D :=
  if g.pts.length = 0 then
    match g.fHistogram with
    | some _ => g
    | none => { g with fHistogram := some (freshHist g.fNpx 0 1 g.fNpy 0 1) }
  else
    match g.fHistogram with
    | none => getHistogramRebuild cz g empty oldInterp
    | some h =>
      if empty = false ∧ h.entries = 0 then
        getHistogramRebuild cz (if g.fUserHisto then g else clearHist g) empty oldInterp
      else if h.entries = 0 then
        getHistogramRebuild cz g empty oldInterp
      else if (g.kOldBit = true ∧ oldInterp = false) ∨ (g.kOldBit = false ∧ oldInterp = true) then
        getHistogramRebuild cz (clearHist g) empty oldInterp
      else g

/-- The `FindObject` search of `TGraph2D::Interpolate` (lines
1249–1260): look in the histogram's function list for the interpolator
of the kind matching the `kOldInterpolation` bit first, falling back to
the other kind. -/
def findDelaunayIn (kOldBit : Bool) (hl : List Delaunay) : Option Delaunay :=
  if kOldBit = false then
    (hl.find? (fun e : Delaunay => e.isOld == false)).orElse
      (fun _ => hl.find? (fun e : Delaunay => e.isOld == true))
  else
    (hl.find? (fun e : Delaunay => e.isOld == true)).orElse
      (fun _ => hl.find? (fun e : Delaunay => e.isOld == false))

/-- `TGraph2D::Interpolate(x, y)` (lines 1241–1272): error-return `0`
for an empty graph; else ensure the histogram exists (`"empty"`
option), recover `fDelaunay` from the histogram's function list if
unset (`findDelaunayIn`), return `TMath::QuietNaN()` (embedded as
`none`) if none is found, and otherwise dispatch `ComputeZ` on the
interpolator.  The pair returned is (result, updated object state). -/
def interpolate (cz : Delaunay → ℚ → ℚ → ℚ) (g : TGraph2D) (x y : ℚ) :
    Option ℚ × TGraph2D :=
  if g.pts.length = 0 then (some 0, g)
  else
    let g1 :=
      match g.fHistogram with
      | none => getHistogram cz g true false
      | some _ => g
    let g2 :=
      match g1.fDelaunay with
      | some _ => g1
      | none =>
        let hl : List Delaunay :=
          match g1.fHistogram with
          | some h => h.funcs
          | none => []
        { g1 with fDelaunay := findDelaunayIn g1.kOldBit hl }
    match g2.fDelaunay with
    | none => (none, g2)
    | some d => (some (cz d x y), g2)

/-- The list a successful `TGraph2D::GetContourList` returns is built by
the histogram painter, outside this source slice; only the empty-graph
error branch is verified, so the nonempty result is an opaque marker. -/
inductive ContourOutcome where
  | painterList
deriving DecidableEq

/-- `TGraph2D::GetContourList(contour)` (lines 916–928): error-return
null (`none`) for an empty graph, else hand off to the painter. -/
def getContourList (g : TGraph2D) (_contour : ℚ) : Option ContourOutcome :=
  if g.pts.length = 0 then none else some ContourOutcome.painterList

/-- `TGraph2D::GetPoint(i, x, y, z)` (lines 1227–1235): `-1` and
untouched outputs on an out-of-range index (the null-array guard of the
C++ can only fire when no valid point exists, which the list model
subsumes under the range check), else the stored coordinates and `i`.
The graph is `const`; the function returns (result, x, y, z). -/
def getPoint (g : TGraph2D) (i : ℤ) (x y z : ℚ) : ℤ × ℚ × ℚ × ℚ :=
  if h : 0 ≤ i ∧ i < (g.pts.length : ℤ) then
    let p := g.pts.get ⟨i.toNat, by omega⟩
    (i, p.1, p.2.1, p.2.2)
  else (-1, x, y, z)

/-- `TGraph2D::SetPoint(n, x, y, z)` (lines 1739–1773): ignore negative
`n`; overwrite point `n` if it exists, otherwise grow the arrays
(`memset` zero-fills the gap when growing an existing allocation; a gap
over a fresh allocation is uninitialized in C++ and is modelled as the
same zero fill) and set `fNpoints = max(fNpoints, n+1)`.  Note: no
cache invalidation is performed here. -/
def setPoint (g : TGraph2D) (n : ℤ) (x y z : ℚ) : TGraph2D :=
  if n < 0 then g
  else if n.toNat < g.pts.length then { g with pts := g.pts.set n.toNat (x, y, z) }
  else
    { g with pts :=
        (g.pts ++ List.replicate (n.toNat - g.pts.length) ((0 : ℚ), (0 : ℚ), (0 : ℚ))) ++
          [(x, y, z)] }

/-- `TGraph2D::RemovePoint(ipoint)` (lines 1469–1485): `-1` on an
out-of-range index; else shift every later sample down one slot,
decrement `fNpoints` (together: `eraseIdx`), drop any cached histogram
and interpolator, and return `ipoint`. -/
def removePoint (g : TGraph2D) (ipoint : ℤ) : ℤ × TGraph2D :=
  if ipoint < 0 then (-1, g)
  else if (g.pts.length : ℤ) ≤ ipoint then (-1, g)
  else (ipoint, clearHist { g with pts := g.pts.eraseIdx ipoint.toNat })

/-- The nested loops of `TGraph2D::RemoveDuplicates` (lines 1435–1449)
restructured on the list: fix the head, remove every later sample with
the same `(x, y)` (the inner `j` loop with its `j--` after each
`RemovePoint`), then continue with the next remaining sample. -/
def removeDupsAux : List Point → List Point
  | [] => []
  | p :: rest =>
    p :: removeDupsAux (rest.filter (fun q => decide (¬(q.1 = p.1 ∧ q.2.1 = p.2.1))))
termination_by l => l.length
decreasing_by
  simp only [List.length_cons]
  exact Nat.lt_succ_of_le (List.length_filter_le _ _)

/-- `TGraph2D::RemoveDuplicates()`: delete every sample whose `(x, y)`
already occurred at a lower index, return the new `fNpoints`.  Each
deletion goes through `RemovePoint`, which drops the cached histogram
and interpolator. -/
def removeDuplicates (g : TGraph2D) : ℤ × TGraph2D :=
  let pts := removeDupsAux g.pts
  if pts.length = g.pts.length then ((pts.length : ℤ), { g with pts := pts })
  else ((pts.length : ℤ), clearHist { g with pts := pts })

/-- `TGraph2D::SetMargin(m)` (lines 1609–1622): warn and fall back to
`0.1` outside `[0, 1]`, else store `m`; always drop any cached histogram
and interpolator.  The returned flag records whether the warning was
issued. -/
def setMargin (g : TGraph2D) (m : ℚ) : Bool × TGraph2D :=
  if m < 0 ∨ m > 1 then (true, clearHist { g with fMargin := 1 / 10 })
  else (false, clearHist { g with fMargin := m })

/-- `TGraph2D::SetMarginBinsContent(z)` (lines 1629–1637): store the
outside-hull fill value and drop any cached histogram and
interpolator. -/
def setMarginBinsContent (g : TGraph2D) (z : ℚ) : TGraph2D :=
  clearHist { g with fZout := z }

/-- `TGraph2D::SetNpx(npx)` (lines 1693–1709): clamp to `[4, 500]` with
a warning (flag in the result), else store; always drop any cached
histogram and interpolator. -/
def setNpx (g : TGraph2D) (npx : ℤ) : Bool × TGraph2D :=
  if npx < 4 then (true, clearHist { g with fNpx := 4 })
  else if npx > 500 then (true, clearHist { g with fNpx := 500 })
  else (false, clearHist { g with fNpx := npx })

/-- `TGraph2D::SetNpy(npy)` (lines 1715–1731). -/
def setNpy (g : TGraph2D) (npy : ℤ) : Bool × TGraph2D :=
  if npy < 4 then (true, clearHist { g with fNpy := 4 })
  else if npy > 500 then (true, clearHist { g with fNpy := 500 })
  else (false, clearHist { g with fNpy := npy })

/-- The `TGraph2D` default constructor (lines 243–263). -/
def TGraph2D.mkDefault : TGraph2D :=
  { pts := [], fMargin := 0, fNpx := 40, fNpy := 40, fZout := 0, fMaxIter := 100000,
    fMaximum := -1111, fMinimum := -1111, fUserHisto := false, kOldBit := false,
    fHistogram := none, fDelaunay := none }

/-- The `TGraph2D(n, x, y, z)` constructors (lines 269–314, 365–377):
`fNpoints = n`, `Build(n)` (which error-returns for `n ≤ 0`, leaving the
members indeterminate in C++ — modelled as the default member values
with no points), then copy the first `n` entries of the caller's arrays
(reading past the supplied data is undefined in C++; modelled as `0`). -/
def TGraph2D.ofArrays (n : ℤ) (xs ys zs : List ℚ) : TGraph2D :=
  if n ≤ 0 then TGraph2D.mkDefault
  else
    { pts := (List.range n.toNat).map (fun i => (xs.getD i 0, ys.getD i 0, zs.getD i 0)),
      fMargin := 0, fNpx := 40, fNpy := 40, fZout := 0, fMaxIter := 100000,
      fMaximum := -1111, fMinimum := -1111, fUserHisto := false, kOldBit := false,
      fHistogram := none, fDelaunay := none }

/-- The `TGraph2D(n)` constructor (lines 384–393): `Build(n)` then
zero-fill the `n` points. -/
def TGraph2D.ofSize (n : ℤ) : TGraph2D :=
  if n ≤ 0 then TGraph2D.mkDefault
  else
    { pts := List.replicate n.toNat ((0 : ℚ), (0 : ℚ), (0 : ℚ)),
      fMargin := 0, fNpx := 40, fNpy := 40, fZout := 0, fMaxIter := 100000,
      fMaximum := -1111, fMinimum := -1111, fUserHisto := false, kOldBit := false,
      fHistogram := none, fDelaunay := none }

/-- Refinement-side definition, written from the spec's words for the
duplicate-removal claim: keep a sample exactly when its `(x, y)` pair
has not occurred at a lower insertion index (the `seen` accumulator
carries the pairs already kept). -/
def keepFirstOccurrences (seen : List (ℚ × ℚ)) : List Point → List Point
  | [] => []
  | p :: rest =>
    if (p.1, p.2.1) ∈ seen then keepFirstOccurrences seen rest
    else p :: keepFirstOccurrences ((p.1, p.2.1) :: seen) rest

/-- A concrete interpolator instance for the stale-cache
counterexample: reports the sum of the `z` values of the snapshot the
interpolator was built from (any snapshot-sensitive function serves). -/
def czSum (d : Delaunay) (_x _y : ℚ) : ℚ := (d.pts.map (fun p => p.2.2)).sum

/-- Helper: dropping the cache never touches the samples or the scalar
parameters. -/
@[simp]
theorem clearHist_proj (g : TGraph2D) :
    (clearHist g).pts = g.pts ∧ (clearHist g).fMargin = g.fMargin ∧
    (clearHist g).fNpx = g.fNpx ∧ (clearHist g).fNpy = g.fNpy ∧
    (clearHist g).fZout = g.fZout ∧ (clearHist g).fMaxIter = g.fMaxIter := by
  cases hg : g.fHistogram <;> simp [clearHist, hg]

/-- Helper: after `clearHist` the histogram slot is always empty. -/
@[simp]
theorem clearHist_fHistogram (g : TGraph2D) : (clearHist g).fHistogram = none := by
  cases hg : g.fHistogram <;> simp [clearHist, hg]

/-- Helper: after `clearHist` the interpolator slot is empty provided it
was not dangling without a histogram. -/
theorem clearHist_fDelaunay (g : TGraph2D)
    (hinv : g.fHistogram = none → g.fDelaunay = none) :
    (clearHist g).fDelaunay = none := by
  cases hg : g.fHistogram with
  | none => simp [clearHist, hg, hinv hg]
  | some h => simp [clearHist, hg]

/-- Claim C5: every freshly constructed graph has the outside-hull fill
value `fZout` defaulted to `0` and the maximum edge-flip iteration count
`fMaxIter` defaulted to `100000` — for the default constructor and for
the constructors that `Build` the data structure with `n ≥ 1` points. -/
theorem ctor_defaults (n : ℤ) (xs ys zs : List ℚ) (h : 1 ≤ n) :
    TGraph2D.mkDefault.fZout = 0 ∧ TGraph2D.mkDefault.fMaxIter = 100000 ∧
    (TGraph2D.ofArrays n xs ys zs).fZout = 0 ∧
    (TGraph2D.ofArrays n xs ys zs).fMaxIter = 100000 ∧
    (TGraph2D.ofSize n).fZout = 0 ∧ (TGraph2D.ofSize n).fMaxIter = 100000 := by
  have hn : ¬ n ≤ 0 := by omega
  refine ⟨rfl, rfl, ?_, ?_, ?_, ?_⟩ <;>
    simp [TGraph2D.ofArrays, TGraph2D.ofSize, hn]

/-- Witness for `ctor_defaults` at `n = 3`. -/
theorem ctor_defaults_witness :
    (1 : ℤ) ≤ 3 ∧ (TGraph2D.ofArrays 3 [1, 2, 3] [4, 5, 6] [7, 8, 9]).fZout = 0 :=
  ⟨by decide, (ctor_defaults 3 [1, 2, 3] [4, 5, 6] [7, 8, 9] (by decide)).2.2.1⟩

/-- Claim C8: `SetNpx` stores `npx` when `4 ≤ npx ≤ 500` and otherwise
clamps it to the nearer bound of `[4, 500]` while issuing a recoverable
warning (the Boolean in the result), never a hard error; `SetNpy`
behaves identically for the y resolution. -/
theorem setNpx_setNpy_spec (g : TGraph2D) (npx npy : ℤ) :
    (4 ≤ npx → npx ≤ 500 → (setNpx g npx).2.fNpx = npx ∧ (setNpx g npx).1 = false) ∧
    (npx < 4 → (setNpx g npx).2.fNpx = 4 ∧ (setNpx g npx).1 = true) ∧
    (500 < npx → (setNpx g npx).2.fNpx = 500 ∧ (setNpx g npx).1 = true) ∧
    (4 ≤ npy → npy ≤ 500 → (setNpy g npy).2.fNpy = npy ∧ (setNpy g npy).1 = false) ∧
    (npy < 4 → (setNpy g npy).2.fNpy = 4 ∧ (setNpy g npy).1 = true) ∧
    (500 < npy → (setNpy g npy).2.fNpy = 500 ∧ (setNpy g npy).1 = true) := by
  refine ⟨fun h1 h2 => ?_, fun h1 => ?_, fun h1 => ?_,
    fun h1 h2 => ?_, fun h1 => ?_, fun h1 => ?_⟩
  · rw [setNpx, if_neg (by omega), if_neg (by omega)]
    simp [(clearHist_proj _).2.2.1]
  · rw [setNpx, if_pos h1]
    simp [(clearHist_proj _).2.2.1]
  · rw [setNpx, if_neg (by omega), if_pos h1]
    simp [(clearHist_proj _).2.2.1]
  · rw [setNpy, if_neg (by omega), if_neg (by omega)]
    simp [(clearHist_proj _).2.2.2.1]
  · rw [setNpy, if_pos h1]
    simp [(clearHist_proj _).2.2.2.1]
  · rw [setNpy, if_neg (by omega), if_pos h1]
    simp [(clearHist_proj _).2.2.2.1]

/-- Witness for `setNpx_setNpy_spec`: the in-range leg at `npx = 40`. -/
theorem setNpx_setNpy_spec_witness :
    (4 : ℤ) ≤ 40 ∧ (40 : ℤ) ≤ 500 ∧
    (setNpx TGraph2D.mkDefault 40).2.fNpx = 40 :=
  ⟨by decide, by decide,
    ((setNpx_setNpy_spec TGraph2D.mkDefault 40 40).1 (by decide) (by decide)).1⟩

/-- Claim C9: `SetMargin(m)` stores `m` when `0 ≤ m ≤ 1` and for `m < 0`
or `m > 1` falls back to the fixed value `0.1` (not the nearest bound)
after a warning; in both cases the cached histogram and Delaunay
interpolator are discarded.  The hypothesis `hinv` is the state
invariant (maintained by every public operation) that an interpolator is
only cached while a histogram is. -/
theorem setMargin_spec (g : TGraph2D) (m : ℚ)
    (hinv : g.fHistogram = none → g.fDelaunay = none) :
    (0 ≤ m → m ≤ 1 → (setMargin g m).2.fMargin = m ∧ (setMargin g m).1 = false) ∧
    (m < 0 ∨ 1 < m → (setMargin g m).2.fMargin = 1 / 10 ∧ (setMargin g m).1 = true) ∧
    (setMargin g m).2.fHistogram = none ∧ (setMargin g m).2.fDelaunay = none := by
  have hinv' : ∀ v : ℚ,
      ({ g with fMargin := v } : TGraph2D).fHistogram = none →
      ({ g with fMargin := v } : TGraph2D).fDelaunay = none := fun _ hh => hinv hh
  refine ⟨fun h1 h2 => ?_, fun h1 => ?_, ?_, ?_⟩
  · rw [setMargin, if_neg (by push_neg; exact ⟨h1, h2⟩)]
    simp [(clearHist_proj _).2.1]
  · rw [setMargin, if_pos (by rcases h1 with h | h; exact Or.inl h; exact Or.inr h)]
    simp [(clearHist_proj _).2.1]
  · rw [setMargin]
    split <;> simp
  · rw [setMargin]
    split <;> exact clearHist_fDelaunay _ (hinv' _)

/-- Witness for `setMargin_spec`: the out-of-range leg at `m = 2`. -/
theorem setMargin_spec_witness :
    ((2 : ℚ) < 0 ∨ (1 : ℚ) < 2) ∧
    (setMargin TGraph2D.mkDefault 2).2.fMargin = 1 / 10 :=
  ⟨by norm_num,
    ((setMargin_spec TGraph2D.mkDefault 2 (fun _ => rfl)).2.1 (by norm_num)).1⟩

/-- Claim C10: `GetPoint(i, x, y, z)` returns `-1` and leaves the three
output arguments unchanged on an invalid request (the null-array guard
of the C++ can only fire when no valid point exists and is subsumed by
the range check in the list model), and otherwise writes the stored
coordinates of sample `i` into the outputs and returns `i`; being
`const`, it never modifies the graph (the embedding is a pure function
of the graph). -/
theorem getPoint_spec (g : TGraph2D) (i : ℤ) (x y z : ℚ) :
    ((i < 0 ∨ (g.pts.length : ℤ) ≤ i) → getPoint g i x y z = (-1, x, y, z)) ∧
    (0 ≤ i → i < (g.pts.length : ℤ) →
      ∃ p, g.pts[i.toNat]? = some p ∧ getPoint g i x y z = (i, p.1, p.2.1, p.2.2)) := by
  constructor
  · intro h
    rw [getPoint, dif_neg]
    omega
  · intro h1 h2
    have hlt : i.toNat < g.pts.length := by omega
    refine ⟨g.pts.get ⟨i.toNat, hlt⟩, ?_, ?_⟩
    · simp [List.getElem?_eq_getElem hlt]
    · rw [getPoint, dif_pos ⟨h1, h2⟩]

/-- Witness for `getPoint_spec`: valid index `1` of a 2-point graph. -/
theorem getPoint_spec_witness :
    (0 : ℤ) ≤ 1 ∧
    (1 : ℤ) < ((TGraph2D.ofArrays 2 [10, 20] [30, 40] [50, 60]).pts.length : ℤ) ∧
    ∃ p, (TGraph2D.ofArrays 2 [10, 20] [30, 40] [50, 60]).pts[(1 : ℤ).toNat]? = some p ∧
      getPoint (TGraph2D.ofArrays 2 [10, 20] [30, 40] [50, 60]) 1 0 0 0 =
        (1, p.1, p.2.1, p.2.2) :=
  ⟨by decide, by decide,
    (getPoint_spec (TGraph2D.ofArrays 2 [10, 20] [30, 40] [50, 60]) 1 0 0 0).2
      (by decide) (by decide)⟩

/-- Claim C1, counterexample: on a zero-sample graph `Interpolate` does
not return the NaN-equivalent sentinel (`none` embeds
`TMath::QuietNaN()`): it error-returns the plain value `0`
(`TGraph2D.cxx` line 1245). -/
theorem interpolate_empty_counterexample :
    (interpolate (fun _ _ _ => 0) TGraph2D.mkDefault 0 0).1 = some 0 ∧
    (interpolate (fun _ _ _ => 0) TGraph2D.mkDefault 0 0).1 ≠ none := by
  constructor
  · rfl
  · intro h
    simp [interpolate, TGraph2D.mkDefault] at h

/-- Claim C1 as amended: for every graph with zero samples, every query
operation reports "no result" without crashing, but the `Interpolate`
sentinel is the plain value `0` (after an error report), not a NaN;
`GetContourList` returns no list for every level, as claimed. -/
theorem interpolate_contour_empty (cz : Delaunay → ℚ → ℚ → ℚ)
    (g : TGraph2D) (x y level : ℚ) (h : g.pts = []) :
    interpolate cz g x y = (some 0, g) ∧ getContourList g level = none := by
  have hl : g.pts.length = 0 := by simp [h]
  exact ⟨by rw [interpolate, if_pos hl], by rw [getContourList, if_pos hl]⟩

/-- Witness for `interpolate_contour_empty` on the default-constructed
(empty) graph. -/
theorem interpolate_contour_empty_witness :
    TGraph2D.mkDefault.pts = [] ∧
    interpolate (fun _ _ _ => 0) TGraph2D.mkDefault 5 7 = (some 0, TGraph2D.mkDefault) :=
  ⟨rfl, (interpolate_contour_empty (fun _ _ _ => 0) TGraph2D.mkDefault 5 7 0 rfl).1⟩

/-- Claim C6: `RemovePoint(ipoint)` on a valid index returns `ipoint`,
shrinks the point count by one, leaves samples below `ipoint` unchanged
and shifts the later ones down one index; on an out-of-range index it
returns `-1` and changes nothing. -/
theorem removePoint_spec (g : TGraph2D) (i : ℤ) :
    ((i < 0 ∨ (g.pts.length : ℤ) ≤ i) → removePoint g i = (-1, g)) ∧
    (0 ≤ i → i < (g.pts.length : ℤ) →
      (removePoint g i).1 = i ∧
      (removePoint g i).2.pts.length + 1 = g.pts.length ∧
      (∀ k : ℕ, (k : ℤ) < i → (removePoint g i).2.pts[k]? = g.pts[k]?) ∧
      (∀ k : ℕ, i ≤ (k : ℤ) → (removePoint g i).2.pts[k]? = g.pts[k + 1]?)) := by
  constructor
  · intro h
    rcases h with h | h
    · rw [removePoint, if_pos h]
    · rw [removePoint, if_neg (by omega), if_pos h]
  · intro h1 h2
    have hne : ¬ i < 0 := by omega
    have hle : ¬ (g.pts.length : ℤ) ≤ i := by omega
    have hlt : i.toNat < g.pts.length := by omega
    rw [removePoint, if_neg hne, if_neg hle]
    refine ⟨rfl, ?_, fun k hk => ?_, fun k hk => ?_⟩
    · simp only [(clearHist_proj _).1]
      rw [List.length_eraseIdx_of_lt hlt]
      omega
    · simp only [(clearHist_proj _).1]
      exact List.getElem?_eraseIdx_of_lt _ _ _ (by omega)
    · simp only [(clearHist_proj _).1]
      exact List.getElem?_eraseIdx_of_ge _ _ _ (by omega)

/-- Witness for `removePoint_spec`: removing index 1 of a 3-point
graph. -/
theorem removePoint_spec_witness :
    (0 : ℤ) ≤ 1 ∧
    (1 : ℤ) < ((TGraph2D.ofArrays 3 [10, 20, 30] [1, 2, 3] [4, 5, 6]).pts.length : ℤ) ∧
    (removePoint (TGraph2D.ofArrays 3 [10, 20, 30] [1, 2, 3] [4, 5, 6]) 1).1 = 1 :=
  ⟨by decide, by decide,
    ((removePoint_spec (TGraph2D.ofArrays 3 [10, 20, 30] [1, 2, 3] [4, 5, 6]) 1).2
      (by decide) (by decide)).1⟩

/-- Helper: `keepFirstOccurrences` only consults the `seen` accumulator
through membership, so accumulators with the same members act alike. -/
theorem keepFirst_congr : ∀ (l : List Point) (s t : List (ℚ × ℚ)),
    (∀ a, a ∈ s ↔ a ∈ t) →
    keepFirstOccurrences s l = keepFirstOccurrences t l
  | [], _, _, _ => rfl
  | p :: rest, s, t, h => by
    simp only [keepFirstOccurrences]
    by_cases hp : (p.1, p.2.1) ∈ s
    · rw [if_pos hp, if_pos ((h _).mp hp), keepFirst_congr rest s t h]
    · rw [if_neg hp, if_neg (fun c => hp ((h _).mpr c)),
        keepFirst_congr rest ((p.1, p.2.1) :: s) ((p.1, p.2.1) :: t)
          (fun a => by simp [h a])]

/-- Helper: the nested removal loops of `RemoveDuplicates` compute
exactly "keep the first occurrence of each `(x, y)`": pre-filtering the
already-seen pairs and running the loops equals the spec-side
description. -/
theorem removeDupsAux_eq_keepFirst : ∀ (l : List Point) (s : List (ℚ × ℚ)),
    removeDupsAux (l.filter (fun p => decide ((p.1, p.2.1) ∉ s))) =
      keepFirstOccurrences s l
  | [], _ => by simp [removeDupsAux, keepFirstOccurrences]
  | p :: rest, s => by
    by_cases hp : (p.1, p.2.1) ∈ s
    · rw [List.filter_cons_of_neg (by simpa using hp)]
      rw [keepFirstOccurrences, if_pos hp]
      exact removeDupsAux_eq_keepFirst rest s
    · rw [List.filter_cons_of_pos (by simpa using hp)]
      rw [keepFirstOccurrences, if_neg hp]
      rw [removeDupsAux, List.filter_filter]
      have hfe :
          (rest.filter fun q =>
            decide (¬(q.1 = p.1 ∧ q.2.1 = p.2.1)) && decide ((q.1, q.2.1) ∉ s)) =
          rest.filter (fun q => decide ((q.1, q.2.1) ∉ (p.1, p.2.1) :: s)) := by
        apply List.filter_congr
        intro q _
        simp only [List.mem_cons, Prod.mk.injEq, decide_not, Bool.decide_or,
          Bool.not_or, Bool.not_and]
      rw [hfe, removeDupsAux_eq_keepFirst rest ((p.1, p.2.1) :: s)]

/-- Helper: everything kept by `keepFirstOccurrences` has an `(x, y)`
outside the accumulator. -/
theorem keepFirst_mem_xy : ∀ (l : List Point) (s : List (ℚ × ℚ)) (q : Point),
    q ∈ keepFirstOccurrences s l → (q.1, q.2.1) ∉ s
  | [], _, _, hq => by simp [keepFirstOccurrences] at hq
  | p :: rest, s, q, hq => by
    by_cases hp : (p.1, p.2.1) ∈ s
    · rw [keepFirstOccurrences, if_pos hp] at hq
      exact keepFirst_mem_xy rest s q hq
    · rw [keepFirstOccurrences, if_neg hp] at hq
      rcases List.mem_cons.mp hq with h | h
      · subst h
        exact hp
      · intro hc
        exact keepFirst_mem_xy rest _ q h (List.mem_cons_of_mem _ hc)

/-- Helper: the kept samples have pairwise distinct `(x, y)` pairs. -/
theorem keepFirst_pairwise : ∀ (l : List Point) (s : List (ℚ × ℚ)),
    List.Pairwise (fun p q : Point => ¬(p.1 = q.1 ∧ p.2.1 = q.2.1))
      (keepFirstOccurrences s l)
  | [], _ => List.Pairwise.nil
  | p :: rest, s => by
    by_cases hp : (p.1, p.2.1) ∈ s
    · rw [keepFirstOccurrences, if_pos hp]
      exact keepFirst_pairwise rest s
    · rw [keepFirstOccurrences, if_neg hp]
      refine List.Pairwise.cons (fun q hq hc => ?_) (keepFirst_pairwise rest _)
      have := keepFirst_mem_xy rest _ q hq
      exact this (by simp [← hc.1, ← hc.2])

/-- Helper: the kept samples are a sublist of the input (relative order
preserved). -/
theorem keepFirst_sublist : ∀ (l : List Point) (s : List (ℚ × ℚ)),
    (keepFirstOccurrences s l).Sublist l
  | [], _ => List.Sublist.refl []
  | p :: rest, s => by
    by_cases hp : (p.1, p.2.1) ∈ s
    · rw [keepFirstOccurrences, if_pos hp]
      exact (keepFirst_sublist rest s).cons p
    · rw [keepFirstOccurrences, if_neg hp]
      exact (keepFirst_sublist rest _).cons₂ p

/-- Claim C7: after `RemoveDuplicates()` no two remaining samples share
an `(x, y)` pair, exactly the lowest-index occurrence of each pair
survives (the result equals the spec-side `keepFirstOccurrences`), the
relative order of survivors is preserved (sublist), and the returned
value is the new number of points. -/
theorem removeDuplicates_spec (g : TGraph2D) :
    List.Pairwise (fun p q : Point => ¬(p.1 = q.1 ∧ p.2.1 = q.2.1))
      (removeDuplicates g).2.pts ∧
    (removeDuplicates g).2.pts = keepFirstOccurrences [] g.pts ∧
    (removeDuplicates g).2.pts.Sublist g.pts ∧
    (removeDuplicates g).1 = ((removeDuplicates g).2.pts.length : ℤ) := by
  have hpts : (removeDuplicates g).2.pts = removeDupsAux g.pts := by
    rw [removeDuplicates]
    split
    · rfl
    · exact (clearHist_proj _).1
  have heq : removeDupsAux g.pts = keepFirstOccurrences [] g.pts := by
    have := removeDupsAux_eq_keepFirst g.pts []
    simpa using this
  refine ⟨?_, ?_, ?_, ?_⟩
  · rw [hpts, heq]
    exact keepFirst_pairwise g.pts []
  · rw [hpts, heq]
  · rw [hpts, heq]
    exact keepFirst_sublist g.pts []
  · rw [hpts]
    rw [removeDuplicates]
    split
    · rfl
    · rfl

/-- Claim C2, counterexample: `SetPoint` does NOT discard the cached
triangulation artifact.  Build the cache by querying a 1-point graph,
append a second sample with `SetPoint`, and the cached Delaunay object
still holds the old 1-point snapshot; the next `Interpolate` uses it and
reports a value computed from the stale snapshot (0, the z-sum of the
old snapshot under the concrete interpolator `czSum`) instead of one
computed from the current samples (7). -/
theorem setPoint_retains_cache_counterexample :
    ((setPoint (interpolate czSum (TGraph2D.ofArrays 1 [0] [0] [0]) 1 1).2 1 5 5 7).pts
        = [(0, 0, 0), (5, 5, 7)]) ∧
    ((setPoint (interpolate czSum (TGraph2D.ofArrays 1 [0] [0] [0]) 1 1).2 1 5 5 7).fDelaunay
        = some { isOld := false, pts := [(0, 0, 0)], zout := 0, maxIter := none }) ∧
    ((interpolate czSum
        (setPoint (interpolate czSum (TGraph2D.ofArrays 1 [0] [0] [0]) 1 1).2 1 5 5 7) 1 1).1
        = some 0) ∧
    czSum { isOld := false, pts := [(0, 0, 0), (5, 5, 7)], zout := 0, maxIter := none } 1 1 = 7 ∧
    (0 : ℚ) ≠ 7 := by
  refine ⟨by decide, by decide, ?_, ?_, by norm_num⟩
  · have hred : (interpolate czSum
        (setPoint (interpolate czSum (TGraph2D.ofArrays 1 [0] [0] [0]) 1 1).2 1 5 5 7) 1 1).1
        = some (czSum { isOld := false, pts := [(0, 0, 0)], zout := 0, maxIter := none } 1 1) :=
      rfl
    rw [hred]
    norm_num [czSum]
  · norm_num [czSum]

/-- Claim C2 as amended: `RemovePoint` (on a valid index), `SetMargin`
and `SetMarginBinsContent` discard the cached interpolation histogram
and Delaunay object (lazily rebuilt on the next query), but `SetPoint`
leaves both caches untouched, so a query after `SetPoint` may use the
triangulation built from the previous sample snapshot.  `hinv` is the
state invariant that an interpolator is only cached while a histogram
is. -/
theorem invalidation_amended (g : TGraph2D)
    (hinv : g.fHistogram = none → g.fDelaunay = none) (i n : ℤ) (x y z m c : ℚ) :
    (0 ≤ i → i < (g.pts.length : ℤ) →
      (removePoint g i).2.fHistogram = none ∧ (removePoint g i).2.fDelaunay = none) ∧
    ((setMargin g m).2.fHistogram = none ∧ (setMargin g m).2.fDelaunay = none) ∧
    ((setMarginBinsContent g c).fHistogram = none ∧ (setMarginBinsContent g c).fDelaunay = none) ∧
    ((setPoint g n x y z).fHistogram = g.fHistogram ∧
      (setPoint g n x y z).fDelaunay = g.fDelaunay) := by
  refine ⟨fun h1 h2 => ?_, ?_, ?_, ?_⟩
  · rw [removePoint, if_neg (by omega), if_neg (by omega)]
    exact ⟨clearHist_fHistogram _, clearHist_fDelaunay _ (fun hh => hinv hh)⟩
  · rw [setMargin]
    split <;>
      exact ⟨clearHist_fHistogram _, clearHist_fDelaunay _ (fun hh => hinv hh)⟩
  · rw [setMarginBinsContent]
    exact ⟨clearHist_fHistogram _, clearHist_fDelaunay _ (fun hh => hinv hh)⟩
  · rw [setPoint]
    split
    · exact ⟨rfl, rfl⟩
    · split <;> exact ⟨rfl, rfl⟩

/-- Witness for `invalidation_amended`: the `RemovePoint` leg on a
1-point graph with a trivially satisfied invariant. -/
theorem invalidation_amended_witness :
    (0 : ℤ) ≤ 0 ∧ (0 : ℤ) < ((TGraph2D.ofArrays 1 [0] [0] [0]).pts.length : ℤ) ∧
    (removePoint (TGraph2D.ofArrays 1 [0] [0] [0]) 0).2.fHistogram = none :=
  ⟨by decide, by decide,
    (((invalidation_amended (TGraph2D.ofArrays 1 [0] [0] [0]) (fun _ => rfl)
      0 0 0 0 0 0 0).1 (by decide) (by decide)).1)⟩

/-- Claim C4: calling `Interpolate(x, y)` twice in succession with no
mutation in between yields identical results, and the second call
leaves the state untouched — it reuses the cached histogram and
Delaunay interpolator instead of rebuilding them (the full result pair,
state included, is reproduced). -/
theorem interpolate_idempotent (cz : Delaunay → ℚ → ℚ → ℚ) (g : TGraph2D) (x y : ℚ)
    (h : g.pts ≠ []) :
    interpolate cz (interpolate cz g x y).2 x y = interpolate cz g x y := by
  obtain ⟨pts, marg, npx, npy, zout, maxit, fmax, fmin, uh, kold, fh, fd⟩ := g
  have hne : pts ≠ [] := h
  have hlen : pts.length ≠ 0 := by
    intro hc
    exact hne (List.length_eq_zero.mp hc)
  cases fh with
  | some hobj =>
    cases fd with
    | some d =>
      simp only [interpolate, if_neg hlen]
    | none =>
      rcases hdl : findDelaunayIn kold hobj.funcs with _ | d <;>
        simp only [interpolate, if_neg hlen, hdl]
  | none =>
    cases uh with
    | true =>
      cases fd with
      | some d =>
        simp [interpolate, getHistogram, hne, hlen, getHistogramRebuild,
          bookHistogram]
      | none =>
        have hnil : findDelaunayIn kold [] = none := by
          cases kold <;> simp [findDelaunayIn]
        simp [interpolate, getHistogram, hne, hlen, getHistogramRebuild,
          bookHistogram, hnil]
    | false =>
      simp [interpolate, getHistogram, hne, hlen, getHistogramRebuild,
        bookHistogram, createInterpolator, freshHist]

/-- Witness for `interpolate_idempotent` on a concrete 1-point graph. -/
theorem interpolate_idempotent_witness :
    (TGraph2D.ofArrays 1 [0] [0] [0]).pts ≠ [] ∧
    interpolate (fun _ _ _ => 0)
        (interpolate (fun _ _ _ => 0) (TGraph2D.ofArrays 1 [0] [0] [0]) 2 3).2 2 3
      = interpolate (fun _ _ _ => 0) (TGraph2D.ofArrays 1 [0] [0] [0]) 2 3 :=
  ⟨by decide,
    interpolate_idempotent (fun _ _ _ => 0) (TGraph2D.ofArrays 1 [0] [0] [0]) 2 3 (by decide)⟩

/-- Helper: a min-fold of the coordinate extractor stays below the
corresponding max-fold (invariant of the `GetXmin`/`GetXmax` loops). -/
theorem foldl_min_le_foldl_max (f : Point → ℚ) :
    ∀ (l : List Point) (v w : ℚ), v ≤ w →
      l.foldl (fun a q => if f q < a then f q else a) v ≤
        l.foldl (fun a q => if f q > a then f q else a) w := by
  intro l
  induction l with
  | nil => intro v w h; exact h
  | cons q rest ih =>
    intro v w h
    apply ih
    by_cases h1 : f q < v <;> by_cases h2 : f q > w <;>
      simp only [h1, h2, if_pos, if_neg, if_true, if_false] <;> linarith

/-- Helper: on a nonempty sample list the x extrema are ordered. -/
theorem minX_le_maxX (l : List Point) (h : l ≠ []) : minX l ≤ maxX l := by
  match l with
  | [] => exact absurd rfl h
  | p :: rest =>
    rw [minX, maxX]
    exact foldl_min_le_foldl_max (fun q => q.1) rest p.1 p.1 le_rfl

/-- Helper: on a nonempty sample list the y extrema are ordered. -/
theorem minY_le_maxY (l : List Point) (h : l ≠ []) : minY l ≤ maxY l := by
  match l with
  | [] => exact absurd rfl h
  | p :: rest =>
    rw [minY, maxY]
    exact foldl_min_le_foldl_max (fun q => q.2.1) rest p.2.1 p.2.1 le_rfl

/-- Helper: `FindBin` maps the `k`-th cell center of an `n`-bin axis to
bin `k`. -/
theorem findBin_center (n : ℤ) (lo hi : ℚ) (k : ℤ) (hn : 0 < n) (hlh : lo < hi)
    (hk1 : 1 ≤ k) (hk2 : k ≤ n) :
    findBin n lo hi (lo + ((k : ℚ) - 1 / 2) * ((hi - lo) / (n : ℚ))) = k := by
  have hnq : (0 : ℚ) < (n : ℚ) := by exact_mod_cast hn
  have hd : (0 : ℚ) < hi - lo := by linarith
  have hkq1 : (1 : ℚ) ≤ (k : ℚ) := by exact_mod_cast hk1
  have hkq2 : (k : ℚ) ≤ (n : ℚ) := by exact_mod_cast hk2
  have hdn : (0 : ℚ) < (hi - lo) / (n : ℚ) := div_pos hd hnq
  have hpos : (0 : ℚ) < ((k : ℚ) - 1 / 2) * ((hi - lo) / (n : ℚ)) :=
    mul_pos (by linarith) hdn
  have hlt : lo + ((k : ℚ) - 1 / 2) * ((hi - lo) / (n : ℚ)) < hi := by
    have h1 : ((k : ℚ) - 1 / 2) * ((hi - lo) / (n : ℚ)) <
        (n : ℚ) * ((hi - lo) / (n : ℚ)) :=
      mul_lt_mul_of_pos_right (by linarith) hdn
    have h2 : (n : ℚ) * ((hi - lo) / (n : ℚ)) = hi - lo := by
      field_simp
    linarith
  rw [findBin, if_neg (by linarith), if_neg (by linarith)]
  have harg : (n : ℚ) * ((lo + ((k : ℚ) - 1 / 2) * ((hi - lo) / (n : ℚ))) - lo) / (hi - lo)
      = (k : ℚ) - 1 / 2 := by
    field_simp
    ring
  rw [harg]
  have hfl : ⌊(k : ℚ) - 1 / 2⌋ = k - 1 := by
    rw [Int.floor_eq_iff]
    push_cast
    constructor <;> linarith
  rw [hfl]
  omega

/-- Helper: the bin update performed by one `Fill`. -/
theorem fill_bins (h : TH2D) (x y z : ℚ) (p q : ℤ) :
    (fill h x y z).bins p q =
      if p = findBin h.nbx h.xlo h.xhi x ∧ q = findBin h.nby h.ylo h.yhi y
      then h.bins p q + z else h.bins p q := rfl

/-- Helper: `Fill` leaves the binning unchanged. -/
theorem fill_axes (h : TH2D) (x y z : ℚ) :
    (fill h x y z).nbx = h.nbx ∧ (fill h x y z).xlo = h.xlo ∧
    (fill h x y z).xhi = h.xhi ∧ (fill h x y z).nby = h.nby ∧
    (fill h x y z).ylo = h.ylo ∧ (fill h x y z).yhi = h.yhi :=
  ⟨rfl, rfl, rfl, rfl, rfl, rfl⟩

/-- Helper: a row of fills leaves the binning unchanged. -/
theorem fillRow_axes (cz : Delaunay → ℚ → ℚ → ℚ) (d : Delaunay) (x ylo dy : ℚ)
    (npy : ℕ) (h : TH2D) :
    (fillRow cz d x ylo dy npy h).nbx = h.nbx ∧ (fillRow cz d x ylo dy npy h).xlo = h.xlo ∧
    (fillRow cz d x ylo dy npy h).xhi = h.xhi ∧ (fillRow cz d x ylo dy npy h).nby = h.nby ∧
    (fillRow cz d x ylo dy npy h).ylo = h.ylo ∧ (fillRow cz d x ylo dy npy h).yhi = h.yhi := by
  rw [fillRow]
  generalize List.range npy = js
  induction js generalizing h with
  | nil => exact ⟨rfl, rfl, rfl, rfl, rfl, rfl⟩
  | cons j js ih =>
    rw [List.foldl_cons]
    exact ih (fill h x (centerAt ylo dy j) (cz d x (centerAt ylo dy j)))

/-- Helper: the inner fill loop adds the interpolated value exactly once
to bin `(p, q)` — when `p` is the column of `x` and `q = j + 1` for a
loop index `j` — and touches nothing else. -/
theorem foldl_fill_bins (cz : Delaunay → ℚ → ℚ → ℚ) (d : Delaunay) (x ylo dy : ℚ) :
    ∀ (js : List ℕ) (h : TH2D) (p q : ℤ), js.Nodup →
      (∀ j ∈ js, findBin h.nby h.ylo h.yhi (centerAt ylo dy j) = (j : ℤ) + 1) →
      ((js.foldl (fun hh j => fill hh x (centerAt ylo dy j) (cz d x (centerAt ylo dy j))) h).bins
          p q)
        = if p = findBin h.nbx h.xlo h.xhi x ∧ ∃ j ∈ js, (j : ℤ) + 1 = q
          then h.bins p q + cz d x (centerAt ylo dy (q - 1).toNat)
          else h.bins p q := by
  intro js
  induction js with
  | nil =>
    intro h p q _ _
    simp
  | cons j js ih =>
    intro h p q hnd hy
    have hbj : findBin h.nby h.ylo h.yhi (centerAt ylo dy j) = (j : ℤ) + 1 :=
      hy j (List.mem_cons_self _ _)
    have hnotin : j ∉ js := (List.nodup_cons.mp hnd).1
    rw [List.foldl_cons,
      ih (fill h x (centerAt ylo dy j) (cz d x (centerAt ylo dy j))) p q
        (List.Nodup.of_cons hnd) (fun j' hj' => hy j' (List.mem_cons_of_mem _ hj')),
      fill_bins]
    by_cases hp : p = findBin h.nbx h.xlo h.xhi x
    · by_cases hq : (j : ℤ) + 1 = q
      · have hnex : ¬ ∃ j' ∈ js, (j' : ℤ) + 1 = q := by
          rintro ⟨j', hj', hjq⟩
          have hj'j : j' = j := by omega
          exact hnotin (hj'j ▸ hj')
        have hqbj : q = findBin h.nby h.ylo h.yhi (centerAt ylo dy j) := by
          rw [hbj]
          omega
        have hjq : (q - 1).toNat = j := by omega
        rw [if_neg (fun hc => hnex hc.2), if_pos ⟨hp, hqbj⟩,
          if_pos ⟨hp, ⟨j, List.mem_cons_self _ _, hq⟩⟩, hjq]
      · have hqne : ¬ q = findBin h.nby h.ylo h.yhi (centerAt ylo dy j) := by
          rw [hbj]
          omega
        have hiff : (∃ j' ∈ j :: js, (j' : ℤ) + 1 = q) ↔ (∃ j' ∈ js, (j' : ℤ) + 1 = q) := by
          constructor
          · rintro ⟨j', hj', e⟩
            rcases List.mem_cons.mp hj' with hj'' | hj''
            · exact absurd (hj'' ▸ e) hq
            · exact ⟨j', hj'', e⟩
          · rintro ⟨j', hj', e⟩
            exact ⟨j', List.mem_cons_of_mem _ hj', e⟩
        by_cases hex : ∃ j' ∈ js, (j' : ℤ) + 1 = q
        · rw [if_pos ⟨hp, hex⟩, if_neg (fun hc => hqne hc.2),
            if_pos ⟨hp, hiff.mpr hex⟩]
        · rw [if_neg (fun hc => hex hc.2), if_neg (fun hc => hqne hc.2),
            if_neg (fun hc => hex (hiff.mp hc.2))]
    · rw [if_neg (fun hc => hp hc.1), if_neg (fun hc => hp hc.1),
        if_neg (fun hc => hp hc.1)]

/-- Helper: one full inner row (`fillRow`) at abscissa `x` adds the
interpolated value to bin `(p, q)` exactly when `p` is the column of
`x`, for every in-range row bin `q`. -/
theorem fillRow_bins (cz : Delaunay → ℚ → ℚ → ℚ) (d : Delaunay) (x ylo dy : ℚ)
    (npy : ℕ) (h : TH2D) (p q : ℤ) (hq1 : 1 ≤ q) (hq2 : q ≤ (npy : ℤ))
    (hy : ∀ j ∈ List.range npy, findBin h.nby h.ylo h.yhi (centerAt ylo dy j) = (j : ℤ) + 1) :
    (fillRow cz d x ylo dy npy h).bins p q =
      if p = findBin h.nbx h.xlo h.xhi x
      then h.bins p q + cz d x (centerAt ylo dy (q - 1).toNat)
      else h.bins p q := by
  rw [fillRow, foldl_fill_bins cz d x ylo dy (List.range npy) h p q (List.nodup_range npy) hy]
  have hex : ∃ j ∈ List.range npy, (j : ℤ) + 1 = q :=
    ⟨(q - 1).toNat, List.mem_range.mpr (by omega), by omega⟩
  by_cases hp : p = findBin h.nbx h.xlo h.xhi x
  · rw [if_pos ⟨hp, hex⟩, if_pos hp]
  · rw [if_neg (fun hc => hp hc.1), if_neg hp]

/-- Helper: the outer fill loop adds the interpolated cell-center value
exactly once to every in-range bin `(p, q)` with `p = i + 1` for a loop
index `i`, and touches nothing else. -/
theorem foldl_fillRow_bins (cz : Delaunay → ℚ → ℚ → ℚ) (d : Delaunay)
    (xlo dx ylo dy : ℚ) (npy : ℕ) :
    ∀ (is : List ℕ) (h : TH2D) (p q : ℤ), is.Nodup →
      (∀ i ∈ is, findBin h.nbx h.xlo h.xhi (centerAt xlo dx i) = (i : ℤ) + 1) →
      (∀ j ∈ List.range npy, findBin h.nby h.ylo h.yhi (centerAt ylo dy j) = (j : ℤ) + 1) →
      1 ≤ q → q ≤ (npy : ℤ) →
      ((is.foldl (fun hh i => fillRow cz d (centerAt xlo dx i) ylo dy npy hh) h).bins p q)
        = if ∃ i ∈ is, (i : ℤ) + 1 = p
          then h.bins p q + cz d (centerAt xlo dx (p - 1).toNat) (centerAt ylo dy (q - 1).toNat)
          else h.bins p q := by
  intro is
  induction is with
  | nil =>
    intro h p q _ _ _ _ _
    simp
  | cons i is ih =>
    intro h p q hnd hx hy hq1 hq2
    have hax := fillRow_axes cz d (centerAt xlo dx i) ylo dy npy h
    have hbi : findBin h.nbx h.xlo h.xhi (centerAt xlo dx i) = (i : ℤ) + 1 :=
      hx i (List.mem_cons_self _ _)
    have hnotin : i ∉ is := (List.nodup_cons.mp hnd).1
    rw [List.foldl_cons,
      ih (fillRow cz d (centerAt xlo dx i) ylo dy npy h) p q (List.Nodup.of_cons hnd)
        (fun i' hi' => by
          rw [hax.1, hax.2.1, hax.2.2.1]
          exact hx i' (List.mem_cons_of_mem _ hi'))
        (fun j hj => by
          rw [hax.2.2.2.1, hax.2.2.2.2.1, hax.2.2.2.2.2]
          exact hy j hj)
        hq1 hq2,
      fillRow_bins cz d (centerAt xlo dx i) ylo dy npy h p q hq1 hq2 hy, hbi]
    by_cases hp : p = (i : ℤ) + 1
    · have hnex : ¬ ∃ i' ∈ is, (i' : ℤ) + 1 = p := by
        rintro ⟨i', hi', hip⟩
        have hi'i : i' = i := by omega
        exact hnotin (hi'i ▸ hi')
      have hip : (p - 1).toNat = i := by omega
      rw [if_neg hnex, if_pos hp, if_pos ⟨i, List.mem_cons_self _ _, hp.symm⟩, hip]
    · have hiff : (∃ i' ∈ i :: is, (i' : ℤ) + 1 = p) ↔ (∃ i' ∈ is, (i' : ℤ) + 1 = p) := by
        constructor
        · rintro ⟨i', hi', e⟩
          rcases List.mem_cons.mp hi' with hi'' | hi''
          · exact absurd (hi'' ▸ e).symm hp
          · exact ⟨i', hi'', e⟩
        · rintro ⟨i', hi', e⟩
          exact ⟨i', List.mem_cons_of_mem _ hi', e⟩
      by_cases hex : ∃ i' ∈ is, (i' : ℤ) + 1 = p
      · rw [if_pos hex, if_neg hp, if_pos (hiff.mpr hex)]
      · rw [if_neg hex, if_neg hp, if_neg (fun hc => hex (hiff.mp hc))]

/-- Helper: the min/max bookkeeping after the fill pass does not touch
the bin contents. -/
theorem ite_set_hmin_bins (c : Prop) [Decidable c] (h : TH2D) (v : ℚ) :
    (if c then { h with hmin := v } else h).bins = h.bins := by
  split <;> rfl

/-- Helper: see `ite_set_hmin_bins`. -/
theorem ite_set_hmax_bins (c : Prop) [Decidable c] (h : TH2D) (v : ℚ) :
    (if c then { h with hmax := v } else h).bins = h.bins := by
  split <;> rfl

set_option maxHeartbeats 1000000

/-- Helper: `FindBin` maps the cell center of 0-based column `i` to bin
`i + 1`, phrased on `centerAt`. -/
theorem findBin_centerAt (n : ℤ) (lo hi : ℚ) (i : ℕ) (hn : 0 < n) (hlh : lo < hi)
    (h2 : (i : ℤ) + 1 ≤ n) :
    findBin n lo hi (centerAt lo ((hi - lo) / (n : ℚ)) i) = (i : ℤ) + 1 := by
  have hfc := findBin_center n lo hi ((i : ℤ) + 1) hn hlh (by omega) h2
  rw [centerAt]
  convert hfc using 2
  push_cast
  ring

/-- Claim C3: for every graph with at least one sample and no
user-supplied histogram (and no cached one — the filling path), and
whenever the margin-expanded ranges are not degenerate in the sense of
the code's relative-epsilon test, `GetHistogram` (without the "empty"
option) fills every one of the `fNpx × fNpy` grid bins with the
interpolator's `ComputeZ` value at that bin's cell center
`(hxmin + (ix − 0.5)·dx, hymin + (iy − 0.5)·dy)` over the bounding box
expanded by `fMargin` on each side. -/
theorem getHistogram_fills_grid (cz : Delaunay → ℚ → ℚ → ℚ) (g : TGraph2D)
    (hne : g.pts ≠ []) (huser : g.fUserHisto = false) (hhist : g.fHistogram = none)
    (hm : 0 ≤ g.fMargin) (hpx : 1 ≤ g.fNpx) (hpy : 1 ≤ g.fNpy)
    (hax : areEqualRel (maxXE g.pts + g.fMargin * (maxXE g.pts - minXE g.pts))
        (minXE g.pts - g.fMargin * (maxXE g.pts - minXE g.pts)) (1 / 1000000000) = false)
    (hay : areEqualRel (maxYE g.pts + g.fMargin * (maxYE g.pts - minYE g.pts))
        (minYE g.pts - g.fMargin * (maxYE g.pts - minYE g.pts)) (1 / 1000000000) = false)
    (ix iy : ℤ) (hix1 : 1 ≤ ix) (hix2 : ix ≤ g.fNpx) (hiy1 : 1 ≤ iy) (hiy2 : iy ≤ g.fNpy) :
    ((getHistogram cz g false false).fHistogram.map (fun hh => hh.bins ix iy))
      = some (cz { isOld := false, pts := g.pts, zout := g.fZout, maxIter := none }
          ((minXE g.pts - g.fMargin * (maxXE g.pts - minXE g.pts)) + ((ix : ℚ) - 1 / 2) *
            (((maxXE g.pts + g.fMargin * (maxXE g.pts - minXE g.pts)) -
                (minXE g.pts - g.fMargin * (maxXE g.pts - minXE g.pts))) / (g.fNpx : ℚ)))
          ((minYE g.pts - g.fMargin * (maxYE g.pts - minYE g.pts)) + ((iy : ℚ) - 1 / 2) *
            (((maxYE g.pts + g.fMargin * (maxYE g.pts - minYE g.pts)) -
                (minYE g.pts - g.fMargin * (maxYE g.pts - minYE g.pts))) / (g.fNpy : ℚ)))) := by
  obtain ⟨pts, marg, npx, npy, zout, maxit, fmax, fmin, uh, kold, fh, fd⟩ := g
  cases uh with
  | true => exact absurd huser (by simp)
  | false =>
  cases fh with
  | some hh0 => exact absurd hhist (by simp)
  | none =>
  have hne' : pts ≠ [] := hne
  have hlen : pts.length ≠ 0 := fun hc => hne' (List.length_eq_zero.mp hc)
  have hpx' : 1 ≤ npx := hpx
  have hpy' : 1 ≤ npy := hpy
  have hix2' : ix ≤ npx := hix2
  have hiy2' : iy ≤ npy := hiy2
  have hm' : 0 ≤ marg := hm
  have hxx : minX pts ≤ maxX pts := minX_le_maxX pts hne'
  have hyy : minY pts ≤ maxY pts := minY_le_maxY pts hne'
  set A := minXE pts - marg * (maxXE pts - minXE pts) with hA
  set B := maxXE pts + marg * (maxXE pts - minXE pts) with hB
  set C := minYE pts - marg * (maxYE pts - minYE pts) with hC
  set D := maxYE pts + marg * (maxYE pts - minYE pts) with hD
  have hEx : maxXE pts = maxX pts := rfl
  have hEx2 : minXE pts = minX pts := rfl
  have hEy : maxYE pts = maxY pts := rfl
  have hEy2 : minYE pts = minY pts := rfl
  have hABle : A ≤ B := by
    have hdiff : B - A = (maxXE pts - minXE pts) * (1 + 2 * marg) := by
      rw [hA, hB]; ring
    have h3 : 0 ≤ maxXE pts - minXE pts := by rw [hEx, hEx2]; linarith
    nlinarith
  have hABne : B ≠ A := by
    intro he
    have h4 : ¬ (|B - A| ≤ (1 / 1000000000 : ℚ) / 2 * (|B| + |A|)) := by
      intro hc
      rw [areEqualRel, decide_eq_false_iff_not] at hax
      exact hax hc
    apply h4
    rw [he]
    simp
  have hAB : A < B := lt_of_le_of_ne hABle (fun he => hABne he.symm)
  have hCDle : C ≤ D := by
    have hdiff : D - C = (maxYE pts - minYE pts) * (1 + 2 * marg) := by
      rw [hC, hD]; ring
    have h3 : 0 ≤ maxYE pts - minYE pts := by rw [hEy, hEy2]; linarith
    nlinarith
  have hCDne : D ≠ C := by
    intro he
    have h4 : ¬ (|D - C| ≤ (1 / 1000000000 : ℚ) / 2 * (|D| + |C|)) := by
      intro hc
      rw [areEqualRel, decide_eq_false_iff_not] at hay
      exact hay hc
    apply h4
    rw [he]
    simp
  have hCD : C < D := lt_of_le_of_ne hCDle (fun he => hCDne he.symm)
  have haxB : areEqualRel B A (1 / 1000000000) = false := hax
  have hayB : areEqualRel D C (1 / 1000000000) = false := hay
  simp only [getHistogram, getHistogramRebuild, bookHistogram, createInterpolator,
    adjustAxis, haxB, hayB, Bool.false_eq_true, if_false, freshHist, if_neg hlen,
    Option.map_some']
  rw [ite_set_hmax_bins, ite_set_hmin_bins, ite_set_hmax_bins, ite_set_hmin_bins,
    ← hA, ← hB, ← hC, ← hD]
  refine congrArg some ?_
  have hnpx0 : (0 : ℤ) < npx := by omega
  have hnpy0 : (0 : ℤ) < npy := by omega
  have hxc : ∀ i ∈ List.range npx.toNat,
      findBin npx A B (centerAt A ((B - A) / (npx : ℚ)) i) = (i : ℤ) + 1 := by
    intro i hi
    have hi' : i < npx.toNat := List.mem_range.mp hi
    exact findBin_centerAt npx A B i hnpx0 hAB (by omega)
  have hyc : ∀ j ∈ List.range npy.toNat,
      findBin npy C D (centerAt C ((D - C) / (npy : ℚ)) j) = (j : ℤ) + 1 := by
    intro j hj
    have hj' : j < npy.toNat := List.mem_range.mp hj
    exact findBin_centerAt npy C D j hnpy0 hCD (by omega)
  have hexix : ∃ i ∈ List.range npx.toNat, (i : ℤ) + 1 = ix :=
    ⟨(ix - 1).toNat, List.mem_range.mpr (by omega), by omega⟩
  rw [fillGrid,
    foldl_fillRow_bins cz { isOld := false, pts := pts, zout := zout, maxIter := none }
      A ((B - A) / (npx : ℚ)) C ((D - C) / (npy : ℚ)) npy.toNat
      (List.range npx.toNat) _ ix iy (List.nodup_range _) hxc hyc hiy1 (by omega),
    if_pos hexix]
  dsimp only
  rw [zero_add]
  have h1x : (((ix - 1).toNat : ℕ) : ℚ) = (ix : ℚ) - 1 := by
    have h0 : (((ix - 1).toNat : ℕ) : ℤ) = ix - 1 := Int.toNat_of_nonneg (by omega)
    exact_mod_cast h0
  have h1y : (((iy - 1).toNat : ℕ) : ℚ) = (iy : ℚ) - 1 := by
    have h0 : (((iy - 1).toNat : ℕ) : ℤ) = iy - 1 := Int.toNat_of_nonneg (by omega)
    exact_mod_cast h0
  rw [centerAt, centerAt, h1x, h1y]
  ring_nf

/-- Helper: x maximum of the concrete witness sample list. -/
theorem evalMaxX : maxXE [((0:ℚ),(0:ℚ),(3:ℚ)), ((1:ℚ),(1:ℚ),(4:ℚ))] = 1 := by
  rw [maxXE, maxX]
  norm_num

/-- Helper: x minimum of the concrete witness sample list. -/
theorem evalMinX : minXE [((0:ℚ),(0:ℚ),(3:ℚ)), ((1:ℚ),(1:ℚ),(4:ℚ))] = 0 := by
  rw [minXE, minX]
  norm_num

/-- Helper: y maximum of the concrete witness sample list. -/
theorem evalMaxY : maxYE [((0:ℚ),(0:ℚ),(3:ℚ)), ((1:ℚ),(1:ℚ),(4:ℚ))] = 1 := by
  rw [maxYE, maxY]
  norm_num

/-- Helper: y minimum of the concrete witness sample list. -/
theorem evalMinY : minYE [((0:ℚ),(0:ℚ),(3:ℚ)), ((1:ℚ),(1:ℚ),(4:ℚ))] = 0 := by
  rw [minYE, minY]
  norm_num

/-- Helper: the witness graph holds the expected two samples. -/
theorem evalPts : (TGraph2D.ofArrays 2 [0, 1] [0, 1] [3, 4]).pts
    = [((0:ℚ),(0:ℚ),(3:ℚ)), ((1:ℚ),(1:ℚ),(4:ℚ))] := by decide

/-- Helper: the witness graph has the default margin. -/
theorem evalMargin : (TGraph2D.ofArrays 2 [0, 1] [0, 1] [3, 4]).fMargin = 0 := by decide

/-- Helper: the witness x range is not degenerate. -/
theorem evalAreX : areEqualRel
    (maxXE (TGraph2D.ofArrays 2 [0, 1] [0, 1] [3, 4]).pts +
      (TGraph2D.ofArrays 2 [0, 1] [0, 1] [3, 4]).fMargin *
        (maxXE (TGraph2D.ofArrays 2 [0, 1] [0, 1] [3, 4]).pts -
          minXE (TGraph2D.ofArrays 2 [0, 1] [0, 1] [3, 4]).pts))
    (minXE (TGraph2D.ofArrays 2 [0, 1] [0, 1] [3, 4]).pts -
      (TGraph2D.ofArrays 2 [0, 1] [0, 1] [3, 4]).fMargin *
        (maxXE (TGraph2D.ofArrays 2 [0, 1] [0, 1] [3, 4]).pts -
          minXE (TGraph2D.ofArrays 2 [0, 1] [0, 1] [3, 4]).pts))
    (1 / 1000000000) = false := by
  rw [areEqualRel, decide_eq_false_iff_not, evalPts, evalMargin, evalMaxX, evalMinX]
  norm_num

/-- Helper: the witness y range is not degenerate. -/
theorem evalAreY : areEqualRel
    (maxYE (TGraph2D.ofArrays 2 [0, 1] [0, 1] [3, 4]).pts +
      (TGraph2D.ofArrays 2 [0, 1] [0, 1] [3, 4]).fMargin *
        (maxYE (TGraph2D.ofArrays 2 [0, 1] [0, 1] [3, 4]).pts -
          minYE (TGraph2D.ofArrays 2 [0, 1] [0, 1] [3, 4]).pts))
    (minYE (TGraph2D.ofArrays 2 [0, 1] [0, 1] [3, 4]).pts -
      (TGraph2D.ofArrays 2 [0, 1] [0, 1] [3, 4]).fMargin *
        (maxYE (TGraph2D.ofArrays 2 [0, 1] [0, 1] [3, 4]).pts -
          minYE (TGraph2D.ofArrays 2 [0, 1] [0, 1] [3, 4]).pts))
    (1 / 1000000000) = false := by
  rw [areEqualRel, decide_eq_false_iff_not, evalPts, evalMargin, evalMaxY, evalMinY]
  norm_num

/-- Witness for `getHistogram_fills_grid`: a 2-point graph, bin (1, 1),
with a constant interpolator. -/
theorem getHistogram_fills_grid_witness :
    (TGraph2D.ofArrays 2 [0, 1] [0, 1] [3, 4]).pts ≠ [] ∧
    ((getHistogram (fun _ _ _ => (0 : ℚ)) (TGraph2D.ofArrays 2 [0, 1] [0, 1] [3, 4])
        false false).fHistogram.map (fun hh => hh.bins 1 1)) = some 0 :=
  ⟨by decide,
    getHistogram_fills_grid (fun _ _ _ => (0 : ℚ)) (TGraph2D.ofArrays 2 [0, 1] [0, 1] [3, 4])
      (by decide) rfl rfl
      (by norm_num [TGraph2D.ofArrays])
      (by decide) (by decide)
      evalAreX evalAreY
      1 1 (by decide) (by decide) (by decide) (by decide)⟩
